import Mathlib

/-!
Verification development for the phoenixx-backend repository.

Part 1 models the Query Construction Engine (the QueryBuilder pattern used
by `getAllUserFromDB` / `getAllAdminFromDB`).  The QueryBuilder class itself
is not among the given source files — only its callers are — so the engine
is modelled from the specification (§3, §4.1 of the spec).

Part 2 embeds the service functions that are present in the source:
`savePostToDB` and `getAllSavedPostsByUser`
(src/app/modules/save-post/save-post.service.ts) and `deleteAccountFromDB`
(user service).
-/

/-- A raw query value: either a plain string or a mapping of
comparison-operator keys to string values (bracket-operator style,
e.g. `age[gte]=5` decodes to `obj [("gte","5")]`). -/
inductive QVal where
  | str (s : String)
  | obj (kvs : List (String × String))
deriving DecidableEq, Repr

/-- Modelled from the spec: a QueryRequest is a mapping from string keys to
values exactly as decoded from a URL query string (§3). -/
abbrev RawQuery := List (String × QVal)

/-- Association-list lookup on a raw query (first binding wins). -/
def lookupQ : RawQuery → String → Option QVal
  | [], _ => none
  | (k, v) :: rest, key => if k == key then some v else lookupQ rest key

/-- A stored document, modelled as a finite string-to-string field map. -/
abbrev Doc := List (String × String)

/-- Association-list lookup of a document field. -/
def lookupStr : Doc → String → Option String
  | [], _ => none
  | (k, v) :: rest, key => if k == key then some v else lookupStr rest key

/-- A filter predicate node: equality on a field, a native comparison on a
field, or the logical OR of case-insensitive substring matches built by the
search operation. -/
inductive QPred where
  | eq (field : String) (value : String)
  | cmp (field : String) (op : String) (value : String)
  | searchOr (flds : List String) (term : String)
deriving DecidableEq, Repr

/-- Modelled from the spec: the error taxonomy of §7; `InvalidQueryError`
covers malformed filters such as unrecognized operator keys. -/
inductive QueryError where
  | InvalidQueryError
deriving DecidableEq, Repr

/-- Case-insensitive substring test used by the search predicate. -/
def strContains (hay needle : String) : Bool :=
  decide (needle.toLower.toList <:+: hay.toLower.toList)

/-- Structural comma splitter over the character list (the model's
equivalent of splitting a string on ","). -/
def splitOnCharAux (sep : Char) : List Char → List (List Char)
  | [] => [[]]
  | c :: rest =>
      match splitOnCharAux sep rest with
      | [] => [[]]
      | cur :: parts =>
          if c == sep then [] :: cur :: parts
          else (c :: cur) :: parts

/-- Split a string on commas (structurally recursive). -/
def splitCommaStr (s : String) : List String :=
  (splitOnCharAux ',' s.data).map (fun cs => String.mk cs)

/-- Parse a digit string into a natural number (structurally recursive),
`none` on the empty string or any non-digit character. -/
def parseNatDigits : List Char → Nat → Option Nat
  | [], acc => some acc
  | c :: rest, acc =>
      if c.isDigit then parseNatDigits rest (acc * 10 + (c.toNat - 48))
      else none

/-- The model's integer coercion of a raw string value. -/
def toNatQ (s : String) : Option Nat :=
  match s.data with
  | [] => none
  | cs => parseNatDigits cs 0

/-- Native string comparison dispatch for operator filters. -/
def evalCmp (op w v : String) : Bool :=
  if op == "gt" then compare v w == Ordering.lt
  else if op == "gte" then compare v w == Ordering.lt || w == v
  else if op == "lt" then compare w v == Ordering.lt
  else if op == "lte" then compare w v == Ordering.lt || w == v
  else if op == "ne" then w != v
  else if op == "in" then (splitCommaStr v).contains w
  else false

/-- Evaluate one filter predicate on a document. -/
def evalPred (d : Doc) : QPred → Bool
  | .eq f v => lookupStr d f == some v
  | .cmp f op v =>
      match lookupStr d f with
      | some w => evalCmp op w v
      | none => false
  | .searchOr flds term =>
      flds.any (fun f =>
        match lookupStr d f with
        | some w => strContains w term
        | none => false)

/-- A document matches an accumulated filter iff it satisfies every
predicate (predicates are combined by logical AND, §4.1). -/
def matchesFilter (preds : List QPred) (d : Doc) : Bool :=
  preds.all (evalPred d)

/-- Modelled from the spec: the engine state.  The QueryBuilder class is not
in the given sources, so its state is reconstructed from §3/§4.1: the copied
raw query, the accumulated filter, the applied skip/limit (none while
unapplied or disabled by the "all" sentinel), the parsed sort spec
(field, descending?) and the projection field list. -/
structure Engine where
  rawQuery : RawQuery
  filter : List QPred
  skip : Option Nat
  limit : Option Nat
  sortSpec : Option (List (String × Bool))
  projection : Option (List String)
deriving DecidableEq, Repr

/-- Modelled from the spec: `new Engine(baseHandle, rawQuery)` — the fresh
engine carries the (copied) raw query and no refinement yet. -/
def mkEngine (q : RawQuery) : Engine :=
  { rawQuery := q, filter := [], skip := none, limit := none,
    sortSpec := none, projection := none }

/-- The reserved keys excluded from equality filtering (§3, §4.1). -/
def reservedKeys : List String :=
  ["searchTerm", "sort", "limit", "page", "fields"]

/-- The recognized comparison-operator keys (§4.1). -/
def recognizedOps : List String :=
  ["gt", "gte", "lt", "lte", "ne", "in"]

/-- The search predicate contributed by a `searchTerm` value: an OR of
substring matches over the searchable fields, empty when the term is
absent or empty (§4.1 search). -/
def searchPredList (sf : List String) (v : Option QVal) : List QPred :=
  match v with
  | some (.str t) => if t == "" then [] else [QPred.searchOr sf t]
  | _ => []

/-- Modelled from the spec: operation `search(searchableFields)` — merges
the search predicate (if any) into the accumulated filter and returns the
engine (chainable). -/
def searchOp (sf : List String) (e : Engine) : Engine :=
  { e with filter := e.filter ++ searchPredList sf (lookupQ e.rawQuery "searchTerm") }

/-- Translate one operator mapping into comparison predicates, failing on
the first unrecognized operator key (§4.1 filter, fail-closed). -/
def opPreds (k : String) : List (String × String) → Except QueryError (List QPred)
  | [] => .ok []
  | (op, w) :: rest =>
      if op ∈ recognizedOps then
        match opPreds k rest with
        | .error err => .error err
        | .ok ps => .ok (QPred.cmp k op w :: ps)
      else .error .InvalidQueryError

/-- Predicates contributed by one non-reserved raw-query entry: an operator
mapping yields comparison predicates, a plain string yields an equality
predicate (§4.1 filter). -/
def predsOfEntry (k : String) : QVal → Except QueryError (List QPred)
  | .str s => .ok [QPred.eq k s]
  | .obj kvs => opPreds k kvs

/-- Modelled from the spec: the predicate set built by `filter()` — all
raw-query entries except the reserved keys, in order; fails with
`InvalidQueryError` on any unrecognized operator key. -/
def filterPreds : RawQuery → Except QueryError (List QPred)
  | [] => .ok []
  | (k, v) :: rest =>
      if k ∈ reservedKeys then filterPreds rest
      else
        match predsOfEntry k v with
        | .error err => .error err
        | .ok ps =>
            match filterPreds rest with
            | .error err => .error err
            | .ok qs => .ok (ps ++ qs)

/-- Modelled from the spec: operation `filter()` — merges the equality and
comparison predicates into the accumulated filter (logical AND), surfacing
`InvalidQueryError` to the caller. -/
def filterOp (e : Engine) : Except QueryError Engine :=
  match filterPreds e.rawQuery with
  | .error err => .error err
  | .ok ps => .ok { e with filter := e.filter ++ ps }

/-- Parse one sort token: a leading `-` marks descending order. -/
def parseSortField (s : String) : String × Bool :=
  match s.data with
  | '-' :: rest => (String.mk rest, true)
  | _ => (s, false)

/-- Parse a comma-separated sort spec (§4.1 sort). -/
def parseSort (s : String) : List (String × Bool) :=
  (splitCommaStr s).map parseSortField

/-- Modelled from the spec: operation `sort()` — parses `rawQuery.sort`,
defaulting to `createdAt` descending when absent. -/
def sortOp (e : Engine) : Engine :=
  match lookupQ e.rawQuery "sort" with
  | some (.str s) => { e with sortSpec := some (parseSort s) }
  | _ => { e with sortSpec := some [("createdAt", true)] }

/-- Coerce a raw value to a positive integer: parsed numbers are clamped to
a minimum of 1, anything absent or malformed falls back to the default
(§3 invariant, §4.1 paginate). -/
def toPos (v : Option QVal) (dflt : Nat) : Nat :=
  match v with
  | some (.str s) =>
      match toNatQ s with
      | some n => max n 1
      | none => dflt
  | _ => dflt

/-- The resolved page: default 1, coerced to integer, minimum 1. -/
def resolvedPage (q : RawQuery) : Nat :=
  toPos (lookupQ q "page") 1

/-- The resolved limit: `none` is the "show all" sentinel produced by the
literal `"all"` token; otherwise default 10, coerced, minimum 1. -/
def resolvedLimit (q : RawQuery) : Option Nat :=
  match lookupQ q "limit" with
  | some (.str s) =>
      if s == "all" then none else some (toPos (some (QVal.str s)) 10)
  | v => some (toPos v 10)

/-- Modelled from the spec: operation `paginate()` — applies
`skip = (page - 1) * limit` and the limit to the handle, unless the limit
is disabled by the `"all"` sentinel, in which case no skip/limit is
applied. -/
def paginateOp (e : Engine) : Engine :=
  match resolvedLimit e.rawQuery with
  | none => e
  | some l =>
      { e with skip := some ((resolvedPage e.rawQuery - 1) * l), limit := some l }

/-- Modelled from the spec: operation `fields()` — parses the
comma-separated projection list; absent means full-document projection. -/
def fieldsOp (e : Engine) : Engine :=
  match lookupQ e.rawQuery "fields" with
  | some (.str s) => { e with projection := some (splitCommaStr s) }
  | _ => e

/-- Modelled from the spec: PaginationMeta (§3); `limit = none` is the
"show all" sentinel. -/
structure PaginationMeta where
  page : Nat
  limit : Option Nat
  total : Nat
  totalPages : Nat
deriving DecidableEq, Repr

/-- The total: a count against the filtered (but not paginated, projected
or sorted) predicate set (§4.1 countTotal). -/
def totalCount (docs : List Doc) (e : Engine) : Nat :=
  (docs.filter (matchesFilter e.filter)).length

/-- `totalPages = ceil(total / limit)`, 0 when total is 0; under the
"show all" sentinel a nonzero total occupies a single page. -/
def totalPagesOf (total : Nat) : Option Nat → Nat
  | none => if total == 0 then 0 else 1
  | some l => (total + l - 1) / l

/-- Modelled from the spec: operation `countTotal()` — executes a count
against the accumulated filter only and returns the pagination
metadata (§4.1). -/
def countTotal (docs : List Doc) (e : Engine) : PaginationMeta :=
  let total := totalCount docs e
  let l := resolvedLimit e.rawQuery
  { page := resolvedPage e.rawQuery, limit := l, total := total,
    totalPages := totalPagesOf total l }

/-- Composite document comparison along a parsed sort spec: earlier fields
take priority, a descending flag flips the field comparison. -/
def compareSpec : List (String × Bool) → Doc → Doc → Ordering
  | [], _, _ => Ordering.eq
  | (f, desc) :: rest, d1, d2 =>
      let v1 := (lookupStr d1 f).getD ""
      let v2 := (lookupStr d2 f).getD ""
      let c := if desc then compare v2 v1 else compare v1 v2
      match c with
      | Ordering.eq => compareSpec rest d1 d2
      | c => c

/-- Boolean `≤` induced by the composite comparison (for the stable sort). -/
def docLE (spec : List (String × Bool)) (d1 d2 : Doc) : Bool :=
  compareSpec spec d1 d2 != Ordering.gt

/-- Stable composite sort of the result sequence (§4.1 sort). -/
def sortDocs (spec : Option (List (String × Bool))) (ds : List Doc) : List Doc :=
  match spec with
  | none => ds
  | some sp => ds.mergeSort (docLE sp)

/-- Projection: restrict every returned document to the selected fields;
absent means full-document projection (§4.1 fields). -/
def projectDocs (spec : Option (List String)) (ds : List Doc) : List Doc :=
  match spec with
  | none => ds
  | some flds => ds.map (fun d => d.filter (fun kv => flds.contains kv.1))

/-- Modelled from the spec: executing the refined handle — filter, then
sort, then skip/limit (when applied), then projection (§4.1, §6). -/
def execute (docs : List Doc) (e : Engine) : List Doc :=
  let fd := docs.filter (matchesFilter e.filter)
  let sorted := sortDocs e.sortSpec fd
  let afterSkip := match e.skip with
    | none => sorted
    | some n => sorted.drop n
  let afterLimit := match e.limit with
    | none => afterSkip
    | some n => afterSkip.take n
  projectDocs e.projection afterLimit

/-- One step of the fluent chain; each operation returns the (possibly
refined) engine so that operations compose in any order, and `filter()`
may surface `InvalidQueryError`. -/
inductive Op where
  | search (sf : List String)
  | filter
  | sort
  | paginate
  | fields
deriving DecidableEq, Repr

/-- Apply one chain operation to the engine. -/
def applyOp : Op → Engine → Except QueryError Engine
  | .search sf, e => .ok (searchOp sf e)
  | .filter, e => filterOp e
  | .sort, e => .ok (sortOp e)
  | .paginate, e => .ok (paginateOp e)
  | .fields, e => .ok (fieldsOp e)

/-- Apply a whole chain of operations in order. -/
def applyOps : List Op → Engine → Except QueryError Engine
  | [], e => .ok e
  | op :: ops, e =>
      match applyOp op e with
      | .error err => .error err
      | .ok e2 => applyOps ops e2

/-- The chain order used by `getAllUserFromDB` / `getAllAdminFromDB`:
search → filter → paginate → sort → fields. -/
def callerChain (sf : List String) : List Op :=
  [Op.search sf, Op.filter, Op.paginate, Op.sort, Op.fields]

/-- The alternative chain order: search → filter → sort → paginate →
fields. -/
def altChain (sf : List String) : List Op :=
  [Op.search sf, Op.filter, Op.sort, Op.paginate, Op.fields]

/-- The engine after search and filter only (the accumulated-filter
snapshot that `countTotal` must see). -/
def buildFiltered (sf : List String) (q : RawQuery) : Except QueryError Engine :=
  filterOp (searchOp sf (mkEngine q))

/-- The raw-query entries that are not page/limit/fields/sort entries:
the part of the raw query that carries filter and search information. -/
def nonPagEntries (q : RawQuery) : RawQuery :=
  q.filter (fun kv => decide (kv.1 ∉ ["page", "limit", "fields", "sort"]))

/-- Modelled from the spec: the full request path of the list endpoints —
build the caller chain, then execute and count; a construction failure
surfaces to the caller and no query executes (§7). -/
def runQuery (sf : List String) (q : RawQuery) (docs : List Doc) :
    Except QueryError (List Doc × PaginationMeta) :=
  match applyOps (callerChain sf) (mkEngine q) with
  | .error err => .error err
  | .ok e => .ok (execute docs e, countTotal docs e)

/-!
Part 2: the service functions present in the source.
-/

/-- A SavePost document: the `userId`/`postId` pair stored by the save-post
service (save-post.service.ts). -/
structure SavePostDoc where
  userId : String
  postId : String
deriving DecidableEq, Repr

/-- The SavePost collection, in insertion order. -/
abbrev SaveState := List SavePostDoc

/-- `SavePost.findOne({userId, postId})`: the first document matching both
fields. -/
def findOnePair (s : SaveState) (p : SavePostDoc) : Option SavePostDoc :=
  s.find? (fun d => d.userId == p.userId && d.postId == p.postId)

/-- `SavePost.findOneAndDelete({userId, postId})`: remove the first document
matching both fields. -/
def deleteOnePair : SaveState → SavePostDoc → SaveState
  | [], _ => []
  | d :: rest, p =>
      if d.userId == p.userId && d.postId == p.postId then rest
      else d :: deleteOnePair rest p

/-- Embeds `savePostToDB` (save-post.service.ts lines 4-19): if a document
for the (userId, postId) pair exists it is deleted and `null` is returned,
otherwise the payload is created and the new document returned. -/
def savePostToDB (s : SaveState) (p : SavePostDoc) : Option SavePostDoc × SaveState :=
  match findOnePair s p with
  | some _ => (none, deleteOnePair s p)
  | none => (some p, s ++ [p])

/-- Embeds `getAllSavedPostsByUser` (save-post.service.ts lines 21-43):
collect the postIds the user has saved, then return every SavePost document
whose postId is in that set (the second `find` filters by postId only; the
`populate` projection does not change which documents are returned). -/
def getAllSavedPostsByUser (s : SaveState) (userId : String) : SaveState :=
  let result := s.filter (fun d => d.userId == userId)
  let postIds := result.map (fun d => d.postId)
  s.filter (fun d => postIds.contains d.postId)

/-- A user document, restricted to the fields `deleteAccountFromDB`
touches: the id, the stored (hashed) password, and the status. -/
structure UserDoc where
  uid : String
  password : String
  status : String
deriving DecidableEq, Repr

/-- The User collection, in insertion order. -/
abbrev UserState := List UserDoc

/-- `User.findById(id)`: the first user with the given id. -/
def findUserById (s : UserState) (id : String) : Option UserDoc :=
  s.find? (fun u => u.uid == id)

/-- The errors `deleteAccountFromDB` can raise. -/
inductive ApiError where
  | passwordIncorrect
deriving DecidableEq, Repr

/-- `User.findOneAndUpdate({_id: id}, {$set: {status}}, {new: true})`:
update the first user with the given id and return the updated document
(`none` when no user matches). -/
def findOneAndUpdateStatus : UserState → String → String → Option UserDoc × UserState
  | [], _, _ => (none, [])
  | u :: rest, id, st =>
      if u.uid == id then
        (some { u with status := st }, { u with status := st } :: rest)
      else
        let r := findOneAndUpdateStatus rest id st
        (r.1, u :: r.2)

/-- Embeds `deleteAccountFromDB` (user service lines 185-206).  The
password check runs only when `password` is truthy (non-empty) and the user
exists; `pwMatch` abstracts the out-of-scope `User.isMatchPassword` hash
comparison.  On success the user's status is set to `'delete'` and the
updated document is returned. -/
def deleteAccountFromDB (pwMatch : String → String → Bool) (s : UserState)
    (id : String) (password : String) :
    Except ApiError (Option UserDoc × UserState) :=
  match findUserById s id with
  | some u =>
      if !(password == "") && !(pwMatch password u.password) then
        .error .passwordIncorrect
      else
        .ok (findOneAndUpdateStatus s id "delete")
  | none => .ok (findOneAndUpdateStatus s id "delete")

/-!
Concrete inputs used to instantiate the theorems below.
-/

/-- The searchable fields used by both callers in the user service. -/
def sfC : List String := ["name", "email"]

/-- A small concrete collection. -/
def docsC : List Doc :=
  [[("status", "active"), ("name", "bob")], [("status", "inactive"), ("name", "ann")]]

/-- A raw query with a status filter and page 1. -/
def qC1a : RawQuery := [("status", QVal.str "active"), ("page", QVal.str "1")]

/-- The same filter entries as `qC1a` with different page/sort entries. -/
def qC1b : RawQuery :=
  [("status", QVal.str "active"), ("page", QVal.str "9"), ("sort", QVal.str "name")]

/-- The engine produced by search+filter on `qC1a`. -/
def eC1a : Engine :=
  { rawQuery := qC1a, filter := [QPred.eq "status" "active"], skip := none,
    limit := none, sortSpec := none, projection := none }

/-- The engine produced by search+filter on `qC1b`. -/
def eC1b : Engine :=
  { rawQuery := qC1b, filter := [QPred.eq "status" "active"], skip := none,
    limit := none, sortSpec := none, projection := none }

/-- A raw query requesting page 2 with limit 5. -/
def qC2 : RawQuery := [("page", QVal.str "2"), ("limit", QVal.str "5")]

/-- A fresh engine over `qC2`. -/
def eC2 : Engine := mkEngine qC2

/-- Twelve documents, all matching the empty filter. -/
def docsC2 : List Doc := List.replicate 12 [("a", "1")]

/-- A raw query with the literal "all" limit and a nontrivial page. -/
def qC3 : RawQuery :=
  [("limit", QVal.str "all"), ("page", QVal.str "3"), ("status", QVal.str "active")]

/-- The engine produced by the caller chain on `qC3`. -/
def eC3 : Engine :=
  { rawQuery := qC3, filter := [QPred.eq "status" "active"], skip := none,
    limit := none, sortSpec := some [("createdAt", true)], projection := none }

/-- The reserved-key example raw query of §8. -/
def qC4 : RawQuery :=
  [("searchTerm", QVal.str "x"), ("sort", QVal.str "y"), ("status", QVal.str "active")]

/-- The engine produced by search+filter on `qC4`. -/
def eC4 : Engine :=
  { rawQuery := qC4,
    filter := [QPred.searchOr ["name", "email"] "x", QPred.eq "status" "active"],
    skip := none, limit := none, sortSpec := none, projection := none }

/-- A raw query with an unrecognized operator key. -/
def qC5 : RawQuery := [("age", QVal.obj [("bogus", "5")])]

/-- A raw query with no page and no limit entry. -/
def qC6 : RawQuery := [("status", QVal.str "active")]

/-- A raw query with a malformed page and a zero limit. -/
def qC6b : RawQuery := [("limit", QVal.str "0"), ("page", QVal.str "zzz")]

/-- A raw query exercising every operation of the chain. -/
def qC7 : RawQuery :=
  [("searchTerm", QVal.str "x"), ("status", QVal.str "active"),
   ("page", QVal.str "2"), ("limit", QVal.str "5"), ("sort", QVal.str "name")]

/-- The engine produced by the caller chain on `qC7`. -/
def eC7 : Engine :=
  { rawQuery := qC7,
    filter := [QPred.searchOr ["name", "email"] "x", QPred.eq "status" "active"],
    skip := some 5, limit := some 5, sortSpec := some [("name", false)],
    projection := none }

/-- A save-post payload. -/
def pC8 : SavePostDoc := { userId := "u1", postId := "p1" }

/-- A SavePost collection that already holds the `pC8` pair. -/
def tC8 : SaveState := [{ userId := "u1", postId := "p1" }]

/-!
Helper lemmas about the engine operations.
-/

/-- `search` leaves the copied raw query untouched. -/
theorem searchOp_rawQuery (sf : List String) (e : Engine) :
    (searchOp sf e).rawQuery = e.rawQuery := rfl

/-- `search` leaves skip untouched. -/
theorem searchOp_skip (sf : List String) (e : Engine) :
    (searchOp sf e).skip = e.skip := rfl

/-- `search` leaves limit untouched. -/
theorem searchOp_limit (sf : List String) (e : Engine) :
    (searchOp sf e).limit = e.limit := rfl

/-- `sort` leaves the raw query untouched. -/
theorem sortOp_rawQuery (e : Engine) : (sortOp e).rawQuery = e.rawQuery := by
  unfold sortOp; split <;> rfl

/-- `sort` leaves the accumulated filter untouched. -/
theorem sortOp_filter (e : Engine) : (sortOp e).filter = e.filter := by
  unfold sortOp; split <;> rfl

/-- `sort` leaves skip untouched. -/
theorem sortOp_skip (e : Engine) : (sortOp e).skip = e.skip := by
  unfold sortOp; split <;> rfl

/-- `sort` leaves limit untouched. -/
theorem sortOp_limit (e : Engine) : (sortOp e).limit = e.limit := by
  unfold sortOp; split <;> rfl

/-- `sort` leaves the projection untouched. -/
theorem sortOp_projection (e : Engine) : (sortOp e).projection = e.projection := by
  unfold sortOp; split <;> rfl

/-- `paginate` leaves the raw query untouched. -/
theorem paginateOp_rawQuery (e : Engine) : (paginateOp e).rawQuery = e.rawQuery := by
  unfold paginateOp; split <;> rfl

/-- `paginate` leaves the accumulated filter untouched. -/
theorem paginateOp_filter (e : Engine) : (paginateOp e).filter = e.filter := by
  unfold paginateOp; split <;> rfl

/-- `paginate` leaves the sort spec untouched. -/
theorem paginateOp_sortSpec (e : Engine) : (paginateOp e).sortSpec = e.sortSpec := by
  unfold paginateOp; split <;> rfl

/-- `paginate` leaves the projection untouched. -/
theorem paginateOp_projection (e : Engine) :
    (paginateOp e).projection = e.projection := by
  unfold paginateOp; split <;> rfl

/-- `fields` leaves the raw query untouched. -/
theorem fieldsOp_rawQuery (e : Engine) : (fieldsOp e).rawQuery = e.rawQuery := by
  unfold fieldsOp; split <;> rfl

/-- `fields` leaves the accumulated filter untouched. -/
theorem fieldsOp_filter (e : Engine) : (fieldsOp e).filter = e.filter := by
  unfold fieldsOp; split <;> rfl

/-- `fields` leaves skip untouched. -/
theorem fieldsOp_skip (e : Engine) : (fieldsOp e).skip = e.skip := by
  unfold fieldsOp; split <;> rfl

/-- `fields` leaves limit untouched. -/
theorem fieldsOp_limit (e : Engine) : (fieldsOp e).limit = e.limit := by
  unfold fieldsOp; split <;> rfl

/-- `fields` leaves the sort spec untouched. -/
theorem fieldsOp_sortSpec (e : Engine) : (fieldsOp e).sortSpec = e.sortSpec := by
  unfold fieldsOp; split <;> rfl

/-- A successful `filter()` appends the computed predicates and changes
nothing else. -/
theorem filterOp_ok (e e' : Engine) (h : filterOp e = .ok e') :
    ∃ ps, filterPreds e.rawQuery = .ok ps ∧
      e' = { e with filter := e.filter ++ ps } := by
  unfold filterOp at h
  cases hf : filterPreds e.rawQuery with
  | error err => rw [hf] at h; cases h
  | ok ps => rw [hf] at h; cases h; exact ⟨ps, rfl, rfl⟩

/-- The positive-integer coercion respects a positive default. -/
theorem toPos_pos (v : Option QVal) (d : Nat) (hd : 1 ≤ d) : 1 ≤ toPos v d := by
  unfold toPos
  split
  · split
    · exact Nat.le_max_right _ 1
    · exact hd
  · exact hd

/-- The resolved page is always a positive integer. -/
theorem resolvedPage_pos (q : RawQuery) : 1 ≤ resolvedPage q :=
  toPos_pos _ _ (by omega)

/-- A resolved (non-disabled) limit is always a positive integer. -/
theorem resolvedLimit_pos (q : RawQuery) (l : Nat) (h : resolvedLimit q = some l) :
    1 ≤ l := by
  unfold resolvedLimit at h
  split at h
  · split at h
    · cases h
    · cases h; exact toPos_pos _ _ (by omega)
  · cases h; exact toPos_pos _ _ (by omega)

/-- The four pagination/presentation keys are all reserved keys. -/
theorem pagKeys_reserved (k : String)
    (h : k ∈ (["page", "limit", "fields", "sort"] : List String)) :
    k ∈ reservedKeys := by
  simp only [List.mem_cons, List.not_mem_nil, or_false] at h
  rcases h with h | h | h | h <;> (subst h; decide)

/-- The filter predicates are unchanged by deleting the pagination
entries of the raw query. -/
theorem filterPreds_nonPagEntries (q : RawQuery) :
    filterPreds (nonPagEntries q) = filterPreds q := by
  induction q with
  | nil => rfl
  | cons kv rest ih =>
      obtain ⟨k, v⟩ := kv
      by_cases hc : k ∈ (["page", "limit", "fields", "sort"] : List String)
      · have hres : k ∈ reservedKeys := pagKeys_reserved k hc
        simp only [List.mem_cons, List.not_mem_nil, or_false] at hc
        have h1 : nonPagEntries ((k, v) :: rest) = nonPagEntries rest := by
          rcases hc with h | h | h | h <;> subst h <;>
            simp [nonPagEntries, List.filter_cons]
        rw [h1, ih]
        simp [filterPreds, hres]
      · have h1 : nonPagEntries ((k, v) :: rest) = (k, v) :: nonPagEntries rest := by
          simp only [List.mem_cons, List.not_mem_nil, or_false, not_or] at hc
          simp [nonPagEntries, List.filter_cons]
          exact hc
        rw [h1]
        by_cases hres : k ∈ reservedKeys
        · simp [filterPreds, hres, ih]
        · simp [filterPreds, hres, ih]

/-- The searchTerm entry is unchanged by deleting the pagination entries. -/
theorem lookupQ_nonPagEntries_searchTerm (q : RawQuery) :
    lookupQ (nonPagEntries q) "searchTerm" = lookupQ q "searchTerm" := by
  induction q with
  | nil => rfl
  | cons kv rest ih =>
      obtain ⟨k, v⟩ := kv
      by_cases hc : k ∈ (["page", "limit", "fields", "sort"] : List String)
      · simp only [List.mem_cons, List.not_mem_nil, or_false] at hc
        have hne : (k == "searchTerm") = false := by
          rcases hc with h | h | h | h <;> (subst h; decide)
        have h1 : nonPagEntries ((k, v) :: rest) = nonPagEntries rest := by
          rcases hc with h | h | h | h <;> subst h <;>
            simp [nonPagEntries, List.filter_cons]
        rw [h1, ih]
        simp [lookupQ, hne]
      · have h1 : nonPagEntries ((k, v) :: rest) = (k, v) :: nonPagEntries rest := by
          simp only [List.mem_cons, List.not_mem_nil, or_false, not_or] at hc
          simp [nonPagEntries, List.filter_cons]
          exact hc
        rw [h1]
        simp only [lookupQ, ih]

/-- A successful search+filter chain produces the engine holding the
search predicate followed by the filter predicates, over the original
raw query. -/
theorem buildFiltered_ok (sf : List String) (q : RawQuery) (e : Engine)
    (h : buildFiltered sf q = .ok e) :
    ∃ ps, filterPreds q = .ok ps ∧
      e.rawQuery = q ∧
      e.filter = searchPredList sf (lookupQ q "searchTerm") ++ ps ∧
      e.skip = none ∧ e.limit = none := by
  unfold buildFiltered at h
  obtain ⟨ps, hps, he⟩ := filterOp_ok _ _ h
  refine ⟨ps, hps, ?_, ?_, ?_, ?_⟩
  · rw [he]; rfl
  · rw [he]; simp [searchOp, mkEngine]
  · rw [he]; rfl
  · rw [he]; rfl

/-- `countTotal` reads only the raw query and the accumulated filter. -/
theorem countTotal_congr (docs : List Doc) (e1 e2 : Engine)
    (hq : e1.rawQuery = e2.rawQuery) (hf : e1.filter = e2.filter) :
    countTotal docs e1 = countTotal docs e2 := by
  unfold countTotal totalCount
  rw [hq, hf]

/-- The total field of the metadata is the count of documents matching the
accumulated filter. -/
theorem countTotal_total (docs : List Doc) (e : Engine) :
    (countTotal docs e).total = (docs.filter (matchesFilter e.filter)).length := rfl

/-- C1: `countTotal().total` depends only on the filter and search
predicates — raw queries that agree outside their page/limit/fields/sort
entries produce the same total through search+filter, and applying
`paginate()` or `fields()` leaves `countTotal()`'s result unchanged. -/
theorem countTotal_total_frame (sf : List String) (docs : List Doc)
    (q1 q2 : RawQuery) (e1 e2 : Engine)
    (hq : nonPagEntries q1 = nonPagEntries q2)
    (h1 : buildFiltered sf q1 = .ok e1)
    (h2 : buildFiltered sf q2 = .ok e2) :
    (countTotal docs e1).total = (countTotal docs e2).total ∧
    countTotal docs (paginateOp e1) = countTotal docs e1 ∧
    countTotal docs (fieldsOp e1) = countTotal docs e1 := by
  obtain ⟨ps1, hps1, hr1, hf1, -, -⟩ := buildFiltered_ok sf q1 e1 h1
  obtain ⟨ps2, hps2, hr2, hf2, -, -⟩ := buildFiltered_ok sf q2 e2 h2
  have hfp : filterPreds q1 = filterPreds q2 := by
    rw [← filterPreds_nonPagEntries q1, ← filterPreds_nonPagEntries q2, hq]
  have hst : lookupQ q1 "searchTerm" = lookupQ q2 "searchTerm" := by
    rw [← lookupQ_nonPagEntries_searchTerm q1,
        ← lookupQ_nonPagEntries_searchTerm q2, hq]
  rw [hps1, hps2] at hfp
  cases hfp
  have hfil : e1.filter = e2.filter := by rw [hf1, hf2, hst]
  refine ⟨?_, ?_, ?_⟩
  · rw [countTotal_total, countTotal_total, hfil]
  · exact countTotal_congr docs _ _ (paginateOp_rawQuery e1) (paginateOp_filter e1)
  · exact countTotal_congr docs _ _ (fieldsOp_rawQuery e1) (fieldsOp_filter e1)

/-- Witness for C1: concrete queries differing only in page and sort
entries yield the same total, and paginate/fields leave the metadata
unchanged. -/
theorem countTotal_total_frame_witness :
    nonPagEntries qC1a = nonPagEntries qC1b ∧
    buildFiltered sfC qC1a = .ok eC1a ∧
    buildFiltered sfC qC1b = .ok eC1b ∧
    ((countTotal docsC eC1a).total = (countTotal docsC eC1b).total ∧
     countTotal docsC (paginateOp eC1a) = countTotal docsC eC1a ∧
     countTotal docsC (fieldsOp eC1a) = countTotal docsC eC1a) :=
  ⟨rfl, rfl, rfl, countTotal_total_frame sfC docsC qC1a qC1b eC1a eC1b rfl rfl rfl⟩

/-- Bounds pinning `(t + l - 1) / l` as the ceiling of `t / l`. -/
theorem ceilDiv_bounds (t l d : Nat) (hl : 1 ≤ l) (hd : d = (t + l - 1) / l) :
    t ≤ d * l ∧ d * l < t + l := by
  have hdm : l * d + (t + l - 1) % l = t + l - 1 := by
    rw [hd]; exact Nat.div_add_mod _ _
  have hm : (t + l - 1) % l < l := Nat.mod_lt _ (by omega)
  have h1 : d * l = l * d := Nat.mul_comm d l
  rw [h1]
  omega

/-- C2: with a resolved page p and an enabled limit l, `paginate()` applies
skip = (p - 1) * l and limit = l, and `countTotal()` returns
totalPages = ceil(total / l) — equal to (total + l - 1) / l, 0 when the
total is 0, and pinned by the two ceiling bounds. -/
theorem paginate_math (e : Engine) (docs : List Doc) (l : Nat)
    (hl : resolvedLimit e.rawQuery = some l) :
    (paginateOp e).skip = some ((resolvedPage e.rawQuery - 1) * l) ∧
    (paginateOp e).limit = some l ∧
    (countTotal docs e).totalPages = ((countTotal docs e).total + l - 1) / l ∧
    ((countTotal docs e).total = 0 → (countTotal docs e).totalPages = 0) ∧
    (countTotal docs e).total ≤ (countTotal docs e).totalPages * l ∧
    (countTotal docs e).totalPages * l < (countTotal docs e).total + l := by
  have hl1 : 1 ≤ l := resolvedLimit_pos _ _ hl
  have hp : paginateOp e =
      { e with skip := some ((resolvedPage e.rawQuery - 1) * l), limit := some l } := by
    unfold paginateOp; rw [hl]
  have htp : (countTotal docs e).totalPages =
      ((countTotal docs e).total + l - 1) / l := by
    simp [countTotal, totalPagesOf, hl, totalCount]
  obtain ⟨hb1, hb2⟩ := ceilDiv_bounds (countTotal docs e).total l
      (countTotal docs e).totalPages hl1 htp
  refine ⟨by rw [hp], by rw [hp], htp, ?_, hb1, hb2⟩
  intro h0
  rw [htp, h0]
  exact Nat.div_eq_of_lt (by omega)

/-- Witness for C2: page=2, limit=5 over 12 matching documents yields
skip=5, limit=5, total=12, totalPages=3. -/
theorem paginate_math_witness :
    resolvedLimit eC2.rawQuery = some 5 ∧
    (paginateOp eC2).skip = some 5 ∧
    (paginateOp eC2).limit = some 5 ∧
    (countTotal docsC2 eC2).total = 12 ∧
    (countTotal docsC2 eC2).totalPages = 3 := by
  have h := paginate_math eC2 docsC2 5 rfl
  exact ⟨rfl, h.1.trans (by decide), h.2.1, rfl, rfl⟩

/-- Decomposition of the caller chain: a successful run is search+filter
followed by the three pure refinements. -/
theorem callerChain_ok (sf : List String) (q : RawQuery) (e : Engine)
    (h : applyOps (callerChain sf) (mkEngine q) = .ok e) :
    ∃ e1, buildFiltered sf q = .ok e1 ∧ e = fieldsOp (sortOp (paginateOp e1)) := by
  simp only [callerChain, applyOps, applyOp] at h
  cases hf : filterOp (searchOp sf (mkEngine q)) with
  | error err => rw [hf] at h; cases h
  | ok e1 =>
      rw [hf] at h
      cases h
      exact ⟨e1, hf, rfl⟩

/-- The "all" token resolves to the disabled-limit sentinel. -/
theorem resolvedLimit_all (q : RawQuery)
    (h : lookupQ q "limit" = some (QVal.str "all")) :
    resolvedLimit q = none := by
  unfold resolvedLimit
  rw [h]
  rfl

/-- Under the disabled limit, `paginate()` applies nothing. -/
theorem paginateOp_all (e : Engine) (h : resolvedLimit e.rawQuery = none) :
    paginateOp e = e := by
  unfold paginateOp; rw [h]

/-- Projection preserves the number of returned documents. -/
theorem projectDocs_length (spec : Option (List String)) (ds : List Doc) :
    (projectDocs spec ds).length = ds.length := by
  unfold projectDocs; split
  · rfl
  · simp

/-- Sorting preserves the number of returned documents. -/
theorem sortDocs_length (spec : Option (List (String × Bool))) (ds : List Doc) :
    (sortDocs spec ds).length = ds.length := by
  unfold sortDocs; split
  · rfl
  · exact List.length_mergeSort ds

/-- C3: a literal "all" limit disables pagination — no skip or limit is
applied to the handle and execute returns every document matching the
accumulated filter (the result count equals `countTotal().total`),
regardless of the page value. -/
theorem limit_all_returns_all (sf : List String) (q : RawQuery) (docs : List Doc)
    (e : Engine)
    (hall : lookupQ q "limit" = some (QVal.str "all"))
    (he : applyOps (callerChain sf) (mkEngine q) = .ok e) :
    e.skip = none ∧ e.limit = none ∧
    (execute docs e).length = (countTotal docs e).total := by
  obtain ⟨e1, h1, hdef⟩ := callerChain_ok sf q e he
  obtain ⟨ps, hps, hr1, hf1, hskip1, hlim1⟩ := buildFiltered_ok sf q e1 h1
  have hrl : resolvedLimit e1.rawQuery = none := by
    rw [hr1]; exact resolvedLimit_all q hall
  have hpag : paginateOp e1 = e1 := paginateOp_all e1 hrl
  have hskip : e.skip = none := by
    rw [hdef, hpag, fieldsOp_skip, sortOp_skip]; exact hskip1
  have hlim : e.limit = none := by
    rw [hdef, hpag, fieldsOp_limit, sortOp_limit]; exact hlim1
  refine ⟨hskip, hlim, ?_⟩
  rw [countTotal_total]
  unfold execute
  rw [hskip, hlim]
  simp only [projectDocs_length, sortDocs_length]

/-- Witness for C3: a concrete query with limit="all" and page=3 returns
all matching documents with no skip/limit applied. -/
theorem limit_all_returns_all_witness :
    lookupQ qC3 "limit" = some (QVal.str "all") ∧
    applyOps (callerChain sfC) (mkEngine qC3) = .ok eC3 ∧
    (eC3.skip = none ∧ eC3.limit = none ∧
     (execute docsC eC3).length = (countTotal docsC eC3).total) :=
  ⟨rfl, rfl, limit_all_returns_all sfC qC3 docsC eC3 rfl rfl⟩

/-- Operator translation yields only comparison predicates, never an
equality predicate. -/
theorem opPreds_no_eq (k0 : String) (kvs : List (String × String))
    (ps : List QPred) (h : opPreds k0 kvs = .ok ps) (k v : String) :
    QPred.eq k v ∉ ps := by
  induction kvs generalizing ps with
  | nil =>
      have h2 : (Except.ok [] : Except QueryError (List QPred)) = .ok ps := h
      cases h2
      simp
  | cons ow rest ih =>
      obtain ⟨op, w⟩ := ow
      unfold opPreds at h
      by_cases hop : op ∈ recognizedOps
      · rw [if_pos hop] at h
        cases hr : opPreds k0 rest with
        | error err => rw [hr] at h; cases h
        | ok ps2 =>
            rw [hr] at h
            cases h
            intro hmem
            rcases List.mem_cons.mp hmem with h2 | h2
            · cases h2
            · exact ih ps2 hr h2
      · rw [if_neg hop] at h; cases h

/-- Every equality predicate produced by `filter()` bears a non-reserved
key. -/
theorem filterPreds_eq_not_reserved (q : RawQuery) (ps : List QPred)
    (h : filterPreds q = .ok ps) (k v : String)
    (hm : QPred.eq k v ∈ ps) : k ∉ reservedKeys := by
  induction q generalizing ps with
  | nil =>
      have h2 : (Except.ok [] : Except QueryError (List QPred)) = .ok ps := h
      cases h2
      simp at hm
  | cons kv rest ih =>
      obtain ⟨k1, v1⟩ := kv
      unfold filterPreds at h
      by_cases hres : k1 ∈ reservedKeys
      · rw [if_pos hres] at h
        exact ih ps h hm
      · rw [if_neg hres] at h
        cases hp : predsOfEntry k1 v1 with
        | error err => rw [hp] at h; cases h
        | ok ps1 =>
            rw [hp] at h
            cases hq : filterPreds rest with
            | error err => rw [hq] at h; cases h
            | ok qs =>
                rw [hq] at h
                cases h
                rcases List.mem_append.mp hm with h1 | h1
                · cases v1 with
                  | str s =>
                      have hp2 : (Except.ok [QPred.eq k1 s] :
                          Except QueryError (List QPred)) = .ok ps1 := hp
                      cases hp2
                      have h3 := List.mem_singleton.mp h1
                      cases h3
                      exact hres
                  | obj kvs => exact absurd h1 (opPreds_no_eq k1 kvs ps1 hp k v)
                · exact ih qs hq h1

/-- The search predicate list never contains an equality predicate. -/
theorem searchPredList_no_eq (sf : List String) (v : Option QVal)
    (k w : String) : QPred.eq k w ∉ searchPredList sf v := by
  unfold searchPredList
  split
  · split <;> simp
  · simp

/-- The no-reserved-equality invariant is preserved by every chain of
engine operations. -/
theorem applyOps_eq_inv (ops : List Op) (e e' : Engine)
    (h : applyOps ops e = .ok e')
    (inv : ∀ k v, QPred.eq k v ∈ e.filter → k ∉ reservedKeys) :
    ∀ k v, QPred.eq k v ∈ e'.filter → k ∉ reservedKeys := by
  induction ops generalizing e with
  | nil =>
      have h2 : (Except.ok e : Except QueryError Engine) = .ok e' := h
      cases h2
      exact inv
  | cons op ops ih =>
      unfold applyOps at h
      cases ha : applyOp op e with
      | error err => rw [ha] at h; cases h
      | ok e2 =>
          rw [ha] at h
          refine ih e2 h ?_
          intro k v hm
          cases op with
          | search sf =>
              have he2 : Except.ok (searchOp sf e) = Except.ok e2 := ha
              injection he2 with he2
              subst he2
              rcases List.mem_append.mp hm with h1 | h1
              · exact inv k v h1
              · exact absurd h1 (searchPredList_no_eq sf _ k v)
          | filter =>
              have hf : filterOp e = .ok e2 := ha
              obtain ⟨ps, hps, he2⟩ := filterOp_ok e e2 hf
              rw [he2] at hm
              rcases List.mem_append.mp hm with h1 | h1
              · exact inv k v h1
              · exact filterPreds_eq_not_reserved _ ps hps k v h1
          | sort =>
              have he2 : Except.ok (sortOp e) = Except.ok e2 := ha
              injection he2 with he2
              subst he2
              rw [sortOp_filter] at hm
              exact inv k v hm
          | paginate =>
              have he2 : Except.ok (paginateOp e) = Except.ok e2 := ha
              injection he2 with he2
              subst he2
              rw [paginateOp_filter] at hm
              exact inv k v hm
          | fields =>
              have he2 : Except.ok (fieldsOp e) = Except.ok e2 := ha
              injection he2 with he2
              subst he2
              rw [fieldsOp_filter] at hm
              exact inv k v hm

/-- C4: `filter()` never turns a reserved key (searchTerm, sort, limit,
page, fields) into an equality-filter predicate, over every chain of
engine operations. -/
theorem reserved_keys_never_equality (ops : List Op) (q : RawQuery) (e : Engine)
    (k v : String)
    (h : applyOps ops (mkEngine q) = .ok e)
    (hm : QPred.eq k v ∈ e.filter) :
    k ∉ reservedKeys :=
  applyOps_eq_inv ops (mkEngine q) e h
    (by intro k2 v2 hx; simp [mkEngine] at hx) k v hm

/-- Witness for C4: the §8 example raw query produces exactly the search
predicate plus the status equality, never a sort equality, and the status
key is not reserved. -/
theorem reserved_keys_never_equality_witness :
    applyOps [Op.search sfC, Op.filter] (mkEngine qC4) = .ok eC4 ∧
    eC4.filter = [QPred.searchOr ["name", "email"] "x",
                  QPred.eq "status" "active"] ∧
    QPred.eq "status" "active" ∈ eC4.filter ∧
    "status" ∉ reservedKeys :=
  ⟨rfl, rfl, by decide,
   reserved_keys_never_equality [Op.search sfC, Op.filter] qC4 eC4
     "status" "active" rfl (by decide)⟩

/-- An operator mapping containing any unrecognized operator key makes the
operator translation fail. -/
theorem opPreds_bad (k0 : String) (kvs : List (String × String))
    (op w : String) (hop : (op, w) ∈ kvs) (hbad : op ∉ recognizedOps) :
    opPreds k0 kvs = .error QueryError.InvalidQueryError := by
  induction kvs with
  | nil => simp at hop
  | cons ow rest ih =>
      obtain ⟨op1, w1⟩ := ow
      rcases List.mem_cons.mp hop with h1 | h1
      · cases h1
        unfold opPreds
        rw [if_neg hbad]
      · unfold opPreds
        by_cases h2 : op1 ∈ recognizedOps
        · rw [if_pos h2, ih h1]
        · rw [if_neg h2]

/-- `filter()` fails on a raw query containing a non-reserved entry whose
operator mapping holds an unrecognized key. -/
theorem filterPreds_bad (q : RawQuery) (k : String)
    (kvs : List (String × String)) (op w : String)
    (hk : k ∉ reservedKeys)
    (hmem : (k, QVal.obj kvs) ∈ q)
    (hop : (op, w) ∈ kvs) (hbad : op ∉ recognizedOps) :
    filterPreds q = .error QueryError.InvalidQueryError := by
  induction q with
  | nil => simp at hmem
  | cons kv rest ih =>
      obtain ⟨k1, v1⟩ := kv
      rcases List.mem_cons.mp hmem with h1 | h1
      · cases h1
        unfold filterPreds
        rw [if_neg hk]
        rw [show predsOfEntry k (QVal.obj kvs) = opPreds k kvs from rfl]
        rw [opPreds_bad k kvs op w hop hbad]
      · unfold filterPreds
        by_cases hres : k1 ∈ reservedKeys
        · rw [if_pos hres]; exact ih h1
        · rw [if_neg hres]
          cases hp : predsOfEntry k1 v1 with
          | error err => cases err; rfl
          | ok ps => rw [ih h1]

/-- C5: a filter value that is a mapping with an unrecognized
comparison-operator key makes `filter()` fail with `InvalidQueryError`,
surfaced to the caller, and no query executes. -/
theorem unknown_operator_fails (sf : List String) (q : RawQuery)
    (docs : List Doc) (k : String) (kvs : List (String × String))
    (op w : String)
    (hk : k ∉ reservedKeys)
    (hmem : (k, QVal.obj kvs) ∈ q)
    (hop : (op, w) ∈ kvs) (hbad : op ∉ recognizedOps) :
    filterPreds q = .error QueryError.InvalidQueryError ∧
    runQuery sf q docs = .error QueryError.InvalidQueryError := by
  have hfp := filterPreds_bad q k kvs op w hk hmem hop hbad
  refine ⟨hfp, ?_⟩
  have hf : filterOp (searchOp sf (mkEngine q)) =
      .error QueryError.InvalidQueryError := by
    unfold filterOp
    rw [show filterPreds (searchOp sf (mkEngine q)).rawQuery = filterPreds q
        from rfl, hfp]
  have hchain : applyOps (callerChain sf) (mkEngine q) =
      .error QueryError.InvalidQueryError := by
    simp only [callerChain, applyOps, applyOp]
    rw [hf]
  unfold runQuery
  rw [hchain]

/-- Witness for C5: the query {age: {bogus: 5}} fails with
InvalidQueryError and no query executes. -/
theorem unknown_operator_fails_witness :
    "age" ∉ reservedKeys ∧
    ("age", QVal.obj [("bogus", "5")]) ∈ qC5 ∧
    ("bogus", "5") ∈ [("bogus", "5")] ∧
    "bogus" ∉ recognizedOps ∧
    (filterPreds qC5 = .error QueryError.InvalidQueryError ∧
     runQuery sfC qC5 docsC = .error QueryError.InvalidQueryError) :=
  ⟨by decide, by decide, by decide, by decide,
   unknown_operator_fails sfC qC5 docsC "age" [("bogus", "5")] "bogus" "5"
     (by decide) (by decide) (by decide) (by decide)⟩

/-- C6: absent page and limit entries resolve to the defaults page=1 and
limit=10, also in the metadata returned by `countTotal()`, and the
resolved page and (enabled) limit are positive integers for every raw
query. -/
theorem default_page_limit (q q2 : RawQuery) (docs : List Doc) (l2 : Nat)
    (hp : lookupQ q "page" = none) (hl : lookupQ q "limit" = none)
    (hl2 : resolvedLimit q2 = some l2) :
    resolvedPage q = 1 ∧ resolvedLimit q = some 10 ∧
    (countTotal docs (mkEngine q)).page = 1 ∧
    (countTotal docs (mkEngine q)).limit = some 10 ∧
    1 ≤ resolvedPage q2 ∧ 1 ≤ l2 := by
  have h1 : resolvedPage q = 1 := by unfold resolvedPage; rw [hp]; rfl
  have h2 : resolvedLimit q = some 10 := by unfold resolvedLimit; rw [hl]; rfl
  exact ⟨h1, h2, h1, h2, resolvedPage_pos q2, resolvedLimit_pos q2 l2 hl2⟩

/-- Witness for C6: a query without page/limit resolves to page=1,
limit=10; a zero limit and a malformed page still resolve to positive
integers. -/
theorem default_page_limit_witness :
    lookupQ qC6 "page" = none ∧ lookupQ qC6 "limit" = none ∧
    resolvedLimit qC6b = some 1 ∧
    (resolvedPage qC6 = 1 ∧ resolvedLimit qC6 = some 10 ∧
     (countTotal docsC (mkEngine qC6)).page = 1 ∧
     (countTotal docsC (mkEngine qC6)).limit = some 10 ∧
     1 ≤ resolvedPage qC6b ∧ 1 ≤ 1) :=
  ⟨rfl, rfl, rfl, default_page_limit qC6 qC6b docsC 1 rfl rfl rfl⟩

/-- `sort()` and `paginate()` commute: they write disjoint state fields
and both read only the raw query. -/
theorem sortOp_paginateOp_comm (e : Engine) :
    sortOp (paginateOp e) = paginateOp (sortOp e) := by
  rcases hl : resolvedLimit e.rawQuery with _ | l
  · rw [paginateOp_all e hl,
        paginateOp_all (sortOp e) (by rw [sortOp_rawQuery]; exact hl)]
  · rcases hs : lookupQ e.rawQuery "sort" with _ | v
    · simp [sortOp, paginateOp, hl, hs]
    · rcases v with s | kvs <;> simp [sortOp, paginateOp, hl, hs]

/-- C7: the operations are composable state transformers — the caller
order (paginate before sort) and the alternative order (sort before
paginate) produce the same engine, and the filter accumulated by search
and filter is exactly the predicate set `countTotal()` counts against. -/
theorem chain_order_commutes (sf : List String) (q : RawQuery)
    (docs : List Doc) (e : Engine) (ps : List QPred)
    (hps : filterPreds q = .ok ps)
    (he : applyOps (callerChain sf) (mkEngine q) = .ok e) :
    applyOps (callerChain sf) (mkEngine q) =
      applyOps (altChain sf) (mkEngine q) ∧
    e.filter = searchPredList sf (lookupQ q "searchTerm") ++ ps ∧
    (countTotal docs e).total =
      (docs.filter (fun d => matchesFilter e.filter d)).length := by
  obtain ⟨e1, h1, hdef⟩ := callerChain_ok sf q e he
  have hB : applyOps (altChain sf) (mkEngine q) =
      .ok (fieldsOp (paginateOp (sortOp e1))) := by
    simp only [altChain, applyOps, applyOp]
    rw [show filterOp (searchOp sf (mkEngine q)) = buildFiltered sf q from rfl,
        h1]
  refine ⟨?_, ?_, rfl⟩
  · rw [he, hdef, hB, sortOp_paginateOp_comm]
  · obtain ⟨ps2, hps2, hr, hf, -, -⟩ := buildFiltered_ok sf q e1 h1
    rw [hps] at hps2
    injection hps2 with h3
    subst h3
    rw [hdef, fieldsOp_filter, sortOp_filter, paginateOp_filter, hf]

/-- Witness for C7: a query exercising every operation yields equal
engines under both chain orders, with the search and status predicates
visible to countTotal. -/
theorem chain_order_commutes_witness :
    filterPreds qC7 = .ok [QPred.eq "status" "active"] ∧
    applyOps (callerChain sfC) (mkEngine qC7) = .ok eC7 ∧
    (applyOps (callerChain sfC) (mkEngine qC7) =
       applyOps (altChain sfC) (mkEngine qC7) ∧
     eC7.filter = searchPredList sfC (lookupQ qC7 "searchTerm") ++
       [QPred.eq "status" "active"] ∧
     (countTotal docsC eC7).total =
       (docsC.filter (fun d => matchesFilter eC7.filter d)).length) :=
  ⟨rfl, rfl,
   chain_order_commutes sfC qC7 docsC eC7 [QPred.eq "status" "active"] rfl rfl⟩

/-- Appending the payload to a collection without its pair makes it the
found document. -/
theorem findOnePair_append_self (s : SaveState) (p : SavePostDoc)
    (h : findOnePair s p = none) : findOnePair (s ++ [p]) p = some p := by
  unfold findOnePair at h ⊢
  rw [List.find?_append, h]
  simp [List.find?]

/-- Deleting the pair from `s ++ [p]` where `s` lacks the pair removes
exactly the appended document. -/
theorem deleteOnePair_append (s : SaveState) (p : SavePostDoc)
    (h : findOnePair s p = none) : deleteOnePair (s ++ [p]) p = s := by
  induction s with
  | nil => simp [deleteOnePair]
  | cons d rest ih =>
      unfold findOnePair at h
      rw [List.find?_cons] at h
      cases hd : (d.userId == p.userId && d.postId == p.postId) with
      | true => simp only [hd] at h; exact Option.noConfusion h
      | false =>
          simp only [hd] at h
          rw [List.cons_append]
          unfold deleteOnePair
          simp only [hd, Bool.false_eq_true, if_false]
          rw [ih h]

/-- C8: `savePostToDB` is a toggle — with no existing pair it creates and
returns the payload document, with an existing pair it deletes and
returns null; two successive calls on an initially-absent pair return the
created document then null, leaving no document for that pair. -/
theorem savePost_toggle (s t : SaveState) (p : SavePostDoc)
    (hnone : findOnePair s p = none)
    (hsome : (findOnePair t p).isSome = true) :
    savePostToDB s p = (some p, s ++ [p]) ∧
    savePostToDB t p = (none, deleteOnePair t p) ∧
    (savePostToDB (s ++ [p]) p).1 = none ∧
    findOnePair (savePostToDB (s ++ [p]) p).2 p = none := by
  have h1 : savePostToDB s p = (some p, s ++ [p]) := by
    unfold savePostToDB; rw [hnone]
  have hfind : findOnePair (s ++ [p]) p = some p :=
    findOnePair_append_self s p hnone
  have h3 : savePostToDB (s ++ [p]) p = (none, deleteOnePair (s ++ [p]) p) := by
    unfold savePostToDB; rw [hfind]
  have h2 : savePostToDB t p = (none, deleteOnePair t p) := by
    unfold savePostToDB
    cases ht : findOnePair t p with
    | none => rw [ht] at hsome; simp at hsome
    | some d => rfl
  refine ⟨h1, h2, ?_, ?_⟩
  · rw [h3]
  · rw [h3]
    show findOnePair (deleteOnePair (s ++ [p]) p) p = none
    rw [deleteOnePair_append s p hnone]
    exact hnone

/-- Witness for C8: toggling a fresh pair creates then deletes it. -/
theorem savePost_toggle_witness :
    findOnePair [] pC8 = none ∧
    (findOnePair tC8 pC8).isSome = true ∧
    (savePostToDB [] pC8 = (some pC8, [] ++ [pC8]) ∧
     savePostToDB tC8 pC8 = (none, deleteOnePair tC8 pC8) ∧
     (savePostToDB ([] ++ [pC8]) pC8).1 = none ∧
     findOnePair (savePostToDB ([] ++ [pC8]) pC8).2 pC8 = none) :=
  ⟨rfl, rfl, savePost_toggle [] tC8 pC8 rfl rfl⟩

/-- `findOneAndUpdateStatus` returns the first matching user with its
status replaced. -/
theorem findOneAndUpdateStatus_found (s : UserState) (id st : String)
    (u : UserDoc) (h : findUserById s id = some u) :
    (findOneAndUpdateStatus s id st).1 = some { u with status := st } := by
  induction s with
  | nil => cases h
  | cons u0 rest ih =>
      unfold findUserById at h
      rw [List.find?_cons] at h
      unfold findOneAndUpdateStatus
      cases hd : (u0.uid == id) with
      | true =>
          simp only [hd] at h
          injection h with h2
          subst h2
          simp [hd]
      | false =>
          simp only [hd] at h
          simp only [hd, Bool.false_eq_true, if_false]
          exact ih h

/-- C9: `deleteAccountFromDB` raises the password error exactly when the
password is non-empty, the user exists, and the hash check fails; with an
empty (or absent, i.e. falsy) password, verification is skipped and the
account status is still set to delete, the updated document being
returned. -/
theorem deleteAccount_password_semantics (pwMatch : String → String → Bool)
    (s : UserState) (id : String) (password : String) :
    (deleteAccountFromDB pwMatch s id password =
        .error ApiError.passwordIncorrect ↔
      password ≠ "" ∧ ∃ u, findUserById s id = some u ∧
        pwMatch password u.password = false) ∧
    (password = "" →
      deleteAccountFromDB pwMatch s id password =
        .ok (findOneAndUpdateStatus s id "delete")) ∧
    (∀ u, findUserById s id = some u →
      (findOneAndUpdateStatus s id "delete").1 =
        some { u with status := "delete" }) := by
  refine ⟨?_, ?_, ?_⟩
  · cases hu : findUserById s id with
    | none =>
        unfold deleteAccountFromDB
        rw [hu]
        simp [hu]
    | some u =>
        unfold deleteAccountFromDB
        rw [hu]
        by_cases hpw : password = ""
        · subst hpw
          simp
        · have hne : (password == "") = false := by
            simp [hpw]
          cases hm : pwMatch password u.password with
          | true => simp [hne, hm, hu]
          | false => simp [hne, hm, hu, hpw]
  · intro hpw
    subst hpw
    unfold deleteAccountFromDB
    cases hu : findUserById s id with
    | none => rfl
    | some u => simp
  · intro u hu
    exact findOneAndUpdateStatus_found s id "delete" u hu

/-- C10: `getAllSavedPostsByUser` returns exactly the SavePost documents
whose postId lies among the postIds the given user has saved — including
save-records created by other users for those posts; the result is
filtered only by postId membership, never by the requesting userId. -/
theorem savedPosts_filtered_by_postId (s : SaveState) (userId : String)
    (d : SavePostDoc) :
    d ∈ getAllSavedPostsByUser s userId ↔
      d ∈ s ∧ ∃ d2, d2 ∈ s ∧ d2.userId = userId ∧ d2.postId = d.postId := by
  unfold getAllSavedPostsByUser
  constructor
  · intro h
    obtain ⟨hds, hcon⟩ := List.mem_filter.mp h
    refine ⟨hds, ?_⟩
    have h2 : d.postId ∈
        (s.filter (fun x => x.userId == userId)).map (fun x => x.postId) := by
      simpa using hcon
    obtain ⟨d2, hd2mem, hd2eq⟩ := List.mem_map.mp h2
    obtain ⟨hd2s, hd2u⟩ := List.mem_filter.mp hd2mem
    exact ⟨d2, hd2s, by simpa using hd2u, hd2eq⟩
  · rintro ⟨hds, d2, hd2s, hd2u, hd2p⟩
    refine List.mem_filter.mpr ⟨hds, ?_⟩
    have h2 : d.postId ∈
        (s.filter (fun x => x.userId == userId)).map (fun x => x.postId) :=
      List.mem_map.mpr ⟨d2, List.mem_filter.mpr ⟨hd2s, by simp [hd2u]⟩, hd2p⟩
    simpa using h2
